import Mathlib

/-!
# Verification of the Pensio Obsidian sync engine

A shallow embedding of the incremental synchronization engine and its
credential lifecycle manager (`SyncEngine` in `src/sync/engine.ts`,
`TokenManager` in `src/auth/tokenManager.ts`, the Pensio `ApiClient`),
together with proofs about the behaviours the specification describes:
auth invalidation, mirror-delete safety, change detection, the sync
queue invariant and retry policy, rename detection, and bulk-sync
idempotence.

JavaScript `Map` objects that are only iterated are modelled as
association lists in iteration order; the persisted `syncedFiles` map is
modelled as a function `String → Option SyncedFileInfo`.  `async`
suspension points are modelled by explicit environments: every network
call's outcome is an input, and timer callbacks that may fire during an
awaited call are delivered as explicit "arrival" events.  The SHA-256
content digest (`computeContentHash`, Web Crypto) is modelled as an
unspecified deterministic function parameter `hashFn`; no claim depends
on its internals, only on equality of digests.
-/

namespace PensioSync

/-! ## JavaScript string primitives used by the engine

All string manipulation is modelled on the underlying character lists so
that every definition evaluates by kernel reduction. -/

/-- `s.toLowerCase()` modelled as a character-wise lowercase map. -/
def jsToLower (s : String) : String := String.mk (s.toList.map Char.toLower)

/-- JavaScript `hay.includes(sub)`: substring containment. -/
def jsIncludes (hay sub : String) : Bool := decide (sub.toList <:+: hay.toList)

/-- JavaScript `s.endsWith(suffix)`. -/
def strEndsWith (s suffix : String) : Bool := decide (suffix.toList <:+ s.toList)

/-- JavaScript `s.startsWith(prefix)`. -/
def strStartsWith (s pre : String) : Bool := decide (pre.toList <+: s.toList)

/-- `split('/')` on a character list: `"a/b"` becomes `["a", "b"]` and the
empty string becomes `[""]`, as in JavaScript. -/
def splitSlashChars : List Char → List (List Char)
  | [] => [[]]
  | c :: rest =>
    let r := splitSlashChars rest
    if c = '/' then [] :: r
    else
      match r with
      | [] => [[c]]
      | h :: t => (c :: h) :: t

/-- JavaScript `s.split('/')`. -/
def jsSplitSlash (s : String) : List String := (splitSlashChars s.toList).map String.mk

/-- JavaScript `parts.join('/')`. -/
def jsJoinSlash : List String → String
  | [] => ""
  | [x] => x
  | x :: xs => x ++ "/" ++ jsJoinSlash xs

/-- JavaScript `s.trim()`. -/
def jsTrim (s : String) : String :=
  String.mk ((((s.toList.dropWhile Char.isWhitespace).reverse.dropWhile
    Char.isWhitespace).reverse))

/-! ## Token lifecycle manager (`src/auth/tokenManager.ts`)

`TokenStorage` is modelled by the `tokens` field: `storeTokens` writes it,
`retrieveTokens` reads it, `clearTokens` sets it to `none`. -/

/-- `TokenData` from `src/auth/tokenStorage.ts`. -/
structure TokenData where
  accessToken : String
  refreshToken : String
  expiresAt : Nat
deriving DecidableEq

/-- The `TokenManager`'s mutable state: the `authInvalidated` flag and the
stored token pair. -/
structure TokenState where
  authInvalidated : Bool
  tokens : Option TokenData
deriving DecidableEq

/-- Outcome of the refresh HTTP request, supplied by the environment. -/
inductive RefreshOutcome where
  | success (access : String)
  | failure (status : Nat)
deriving DecidableEq

/-- Result of a refresh attempt (`ok` = resolved, `error` = thrown). -/
inductive RefreshResult where
  | ok (tokens : TokenData)
  | error (msg : String)
deriving DecidableEq

/-- Return value of `_performRefresh`: the result, the token manager state
afterwards, and how many network requests were issued. -/
structure RefreshStep where
  result : RefreshResult
  state : TokenState
  networkCalls : Nat
deriving DecidableEq

def HOUR_MS : Nat := 60 * 60 * 1000

def DAY_MS : Nat := 24 * HOUR_MS

/-- `TokenManager._performRefresh`.  (`refreshToken()` collapses concurrent
callers onto this single in-flight operation; in the single-threaded model
they are the same function.) -/
def performRefresh (s : TokenState) (now : Nat) (env : RefreshOutcome) : RefreshStep :=
  if s.authInvalidated then
    ⟨.error "Authentication was invalidated — please log in again", s, 0⟩
  else
    match s.tokens with
    | none => ⟨.error "No refresh token available", s, 0⟩
    | some tks =>
      if tks.refreshToken = "" then
        ⟨.error "No refresh token available", s, 0⟩
      else
        match env with
        | .success access =>
          let newTokens : TokenData := ⟨access, tks.refreshToken, now + DAY_MS⟩
          ⟨.ok newTokens, { s with tokens := some newTokens }, 1⟩
        | .failure status =>
          if status = 401 then
            ⟨.error "Failed to refresh authentication token",
             { authInvalidated := true, tokens := none }, 1⟩
          else
            ⟨.error "Failed to refresh authentication token", s, 1⟩

/-- Return value of `getAccessToken`. -/
structure TokenFetch where
  token : Option String
  state : TokenState
  networkCalls : Nat
deriving DecidableEq

/-- `TokenManager.getAccessToken`. -/
def getAccessToken (s : TokenState) (now : Nat) (env : RefreshOutcome) : TokenFetch :=
  if s.authInvalidated then ⟨none, s, 0⟩
  else
    match s.tokens with
    | none => ⟨none, s, 0⟩
    | some tks =>
      if tks.expiresAt - now < HOUR_MS then
        let r := performRefresh s now env
        match r.result with
        | .ok newTokens => ⟨some newTokens.accessToken, r.state, r.networkCalls⟩
        | .error _ => ⟨some tks.accessToken, r.state, r.networkCalls⟩
      else ⟨some tks.accessToken, s, 0⟩

/-- `TokenManager.handleUnauthorized`: returns the refreshed tokens or
`none`, plus the state afterwards and the network call count. -/
def handleUnauthorized (s : TokenState) (now : Nat) (env : RefreshOutcome) :
    Option TokenData × TokenState × Nat :=
  if s.authInvalidated then (none, s, 0)
  else
    let r := performRefresh s now env
    match r.result with
    | .ok t => (some t, r.state, r.networkCalls)
    | .error _ =>
      if r.state.authInvalidated then (none, r.state, r.networkCalls)
      else (none, { r.state with tokens := none }, r.networkCalls)

/-- `TokenManager.initialize`: the only operation that resets the
`authInvalidated` flag (explicit re-initialization with fresh credentials). -/
def initializeTokens (access refresh : String) (now : Nat) : TokenState :=
  { authInvalidated := false, tokens := some ⟨access, refresh, now + DAY_MS⟩ }

/-- `TokenManager.isAuthInvalidated`; the `ApiClient` (and through it the
`SyncEngine`) consults this flag before network activity. -/
def isAuthInvalidated (s : TokenState) : Bool := s.authInvalidated

/-- The token manager operations that can run after an invalidation,
short of an explicit `initialize` with a fresh credential. -/
inductive TMOp where
  | getToken (now : Nat) (env : RefreshOutcome)
  | refresh (now : Nat) (env : RefreshOutcome)
  | unauthorized (now : Nat) (env : RefreshOutcome)
  | clearToks

/-- State transition of a single token manager operation. -/
def tmStep (op : TMOp) (s : TokenState) : TokenState :=
  match op with
  | .getToken now env => (getAccessToken s now env).state
  | .refresh now env => (performRefresh s now env).state
  | .unauthorized now env => (handleUnauthorized s now env).2.1
  | .clearToks => { s with tokens := none }

/-- Running a sequence of token manager operations. -/
def tmSteps (ops : List TMOp) (s : TokenState) : TokenState :=
  ops.foldl (fun st op => tmStep op st) s

example : (performRefresh ⟨false, some ⟨"a", "r", 0⟩⟩ 0 (.failure 401)).state
    = ⟨true, none⟩ := by decide

example : (performRefresh ⟨false, some ⟨"a", "r", 0⟩⟩ 0 (.failure 500)).state
    = ⟨false, some ⟨"a", "r", 0⟩⟩ := by decide

example : getAccessToken ⟨true, some ⟨"a", "r", 99999999999⟩⟩ 0 (.success "n")
    = ⟨none, ⟨true, some ⟨"a", "r", 99999999999⟩⟩, 0⟩ := by decide

/-! ## Settings and file classification (`src/types.ts`, `SyncEngine`) -/

/-- One entry of `PensioSettings.journalFolders`. -/
structure FolderMapping where
  folder : String
  entryType : String
deriving DecidableEq

/-- The slice of `PensioSettings` the sync engine reads. -/
structure Settings where
  journalFolders : List FolderMapping
  peopleFolder : String
  enableMirrorDelete : Bool
deriving DecidableEq

/-- `SyncEngine.shouldSyncFile`. -/
def shouldSyncFile (st : Settings) (path : String) : Bool :=
  if !strEndsWith path ".md" then false
  else
    let inJournalFolder := st.journalFolders.any fun m =>
      (jsTrim m.folder).length > 0 &&
        (strStartsWith path (m.folder ++ "/") || path == m.folder)
    if inJournalFolder then true
    else
      (jsTrim st.peopleFolder).length > 0 &&
        (strStartsWith path (st.peopleFolder ++ "/") || path == st.peopleFolder)

/-- `SyncEngine.detectContentType`: `"person"` for the people folder, the
mapped entry type for a journal folder, `"daily_journal"` otherwise. -/
def detectContentType (st : Settings) (path : String) : String :=
  if st.peopleFolder != "" && strStartsWith path (st.peopleFolder ++ "/") then "person"
  else if st.peopleFolder != "" && path == st.peopleFolder then "person"
  else
    match st.journalFolders.find? (fun m =>
        (jsTrim m.folder).length > 0 &&
          (strStartsWith path (m.folder ++ "/") || path == m.folder)) with
    | some m => m.entryType
    | none => "daily_journal"

/-! ## Rename detection (`SyncEngine.checkForRename` and helpers) -/

/-- `s.replace(/\.md$/, '')`. -/
def stripMdExt (s : String) : String :=
  if strEndsWith s ".md" then String.mk (s.toList.take (s.toList.length - 3)) else s

/-- `s.replace(/_\d+$/, '')`: remove a trailing underscore followed by one
or more digits. -/
def stripNumberSuffix (s : String) : String :=
  let rev := s.toList.reverse
  let ds := rev.takeWhile (·.isDigit)
  if ds.isEmpty then s
  else
    match rev.drop ds.length with
    | '_' :: rest => String.mk rest.reverse
    | _ => s

/-- `SyncEngine.extractBaseName`: file name without folder, `.md`
extension, or a trailing `_2`-style numeric suffix. -/
def extractBaseName (filePath : String) : String :=
  let fileName := ((jsSplitSlash filePath).getLast?).getD ""
  stripNumberSuffix (stripMdExt fileName)

/-- `SyncEngine.getParentFolder`. -/
def getParentFolder (filePath : String) : String :=
  jsJoinSlash (jsSplitSlash filePath).dropLast

/-- `SyncEngine.areSimilarNames`: exact match, or case-insensitive
substring containment either way. -/
def areSimilarNames (name1 name2 : String) : Bool :=
  if name1 == name2 then true
  else
    let lower1 := jsToLower name1
    let lower2 := jsToLower name2
    jsIncludes lower1 lower2 || jsIncludes lower2 lower1

/-- The value stored in `recentDeletes` for a deleted path. -/
structure DeleteInfo where
  name : String
  timestamp : Nat
deriving DecidableEq

def RENAME_DETECTION_MS : Nat := 5000

/-- The loop body of `SyncEngine.checkForRename`: walk the `recentDeletes`
map in iteration order, dropping expired records, and stop at the first
record in the same parent folder with a similar normalized name.  Returns
whether a rename was detected plus the surviving records. -/
def checkForRenameGo (now : Nat) (newName newFolder : String) :
    List (String × DeleteInfo) → Bool × List (String × DeleteInfo)
  | [] => (false, [])
  | (deletedPath, info) :: rest =>
    if now - info.timestamp > RENAME_DETECTION_MS then
      checkForRenameGo now newName newFolder rest
    else if getParentFolder deletedPath == newFolder
        && areSimilarNames info.name newName then
      (true, rest)
    else
      let r := checkForRenameGo now newName newFolder rest
      (r.1, (deletedPath, info) :: r.2)

/-- `SyncEngine.checkForRename` for a newly created file. -/
def checkForRename (recentDeletes : List (String × DeleteInfo)) (now : Nat)
    (newPath : String) : Bool × List (String × DeleteInfo) :=
  checkForRenameGo now (extractBaseName newPath) (getParentFolder newPath) recentDeletes

/-- Queue actions (`SyncQueueItem.action`). -/
inductive SyncAction where
  | create
  | update
  | delete
deriving DecidableEq

/-- `SyncEngine.onFileCreated`: the action handed to `debounceSync` (and
hence enqueued once the debounce timer fires), or `none` when the file is
not eligible for sync. -/
def onFileCreatedAction (st : Settings) (recentDeletes : List (String × DeleteInfo))
    (now : Nat) (path : String) : Option SyncAction :=
  if shouldSyncFile st path then
    if (checkForRename recentDeletes now path).1 then some .update
    else some .create
  else none

example : extractBaseName "People/Alice_2.md" = "Alice" := by decide

example : extractBaseName "People/Alice.md" = "Alice" := by decide

example : getParentFolder "People/Alice_2.md" = "People" := by decide

example : areSimilarNames "Alice" "Alice" = true := by decide

example :
    onFileCreatedAction ⟨[], "People", false⟩
      [("People/Alice.md", ⟨"Alice", 1000⟩)] 3000 "People/Alice_2.md"
      = some .update := by decide

/-! ## Sync queue (`SyncEngine.addToQueue`, `SyncEngine.processQueue`) -/

/-- `SyncQueueItem` from `src/types.ts`. -/
structure SyncQueueItem where
  filePath : String
  action : SyncAction
  timestamp : Nat
  retryCount : Nat
deriving DecidableEq

/-- `SyncEngine.addToQueue`: drop every existing item for the path, then
push a fresh item with `retryCount 0`. -/
def addToQueue (q : List SyncQueueItem) (filePath : String) (action : SyncAction)
    (now : Nat) : List SyncQueueItem :=
  (q.filter fun item => item.filePath != filePath) ++ [⟨filePath, action, now, 0⟩]

/-- The `catch` block of the `processQueue` drain loop: drop on 401/409,
re-enqueue at the tail with an incremented `retryCount` while below the
ceiling of 3, drop otherwise.  (`errorStatus` is `error?.status || 0`.) -/
def handleSyncFailure (q : List SyncQueueItem) (item : SyncQueueItem)
    (errorStatus : Nat) : List SyncQueueItem :=
  if errorStatus == 401 || errorStatus == 409 then q
  else if item.retryCount < 3 then q ++ [{ item with retryCount := item.retryCount + 1 }]
  else q

/-- Environment-supplied outcome of `syncQueueItem` for one drained item. -/
inductive ItemOutcome where
  | ok
  | fail (status : Nat)
deriving DecidableEq

/-- One drain-loop step of the cooperative execution: the awaited
`syncQueueItem` call has an outcome, and debounce timers that fire during
the await deliver `addToQueue` arrivals (path, action, timestamp).  The
nested `processQueue` call those timers make is a no-op because
`isSyncing` is set. -/
structure DrainStep where
  outcome : ItemOutcome
  arrivals : List (String × SyncAction × Nat)

/-- Observable events of a drain: an item is attempted (a sync is tried
for its path), or its failure is logged. -/
inductive QueueEvent where
  | attempt (path : String)
  | failureLogged (path : String)
deriving DecidableEq

/-- Deliver the `addToQueue` calls that fired during an awaited item. -/
def applyArrivals (q : List SyncQueueItem)
    (arrivals : List (String × SyncAction × Nat)) : List SyncQueueItem :=
  arrivals.foldl (fun acc pa => addToQueue acc pa.1 pa.2.1 pa.2.2) q

/-- One iteration of the `while` loop in `processQueue`: shift the head
item, run it (arrivals land during the await), and on failure apply the
retry policy.  Returns the queue afterwards and the emitted events. -/
def drainIteration (q : List SyncQueueItem) (step : DrainStep) :
    List SyncQueueItem × List QueueEvent :=
  match q with
  | [] => ([], [])
  | item :: rest =>
    let q1 := applyArrivals rest step.arrivals
    match step.outcome with
    | .ok => (q1, [.attempt item.filePath])
    | .fail status =>
      (handleSyncFailure q1 item status,
       [.attempt item.filePath, .failureLogged item.filePath])

/-- The `while` loop of `processQueue`, iterated up to `fuel` times (the
real loop runs until the queue is empty; bounding it lets us inspect the
engine state at any intermediate point of a drain). -/
def drainLoop (env : Nat → DrainStep) : Nat → Nat → List SyncQueueItem →
    List SyncQueueItem × List QueueEvent
  | _, 0, q => (q, [])
  | i, fuel + 1, q =>
    match q with
    | [] => ([], [])
    | _ :: _ =>
      let (q1, evs) := drainIteration q (env i)
      let (qf, evs') := drainLoop env (i + 1) fuel q1
      (qf, evs ++ evs')

/-- The engine state `processQueue` touches. -/
structure EngineState where
  queue : List SyncQueueItem
  isSyncing : Bool
  authInvalidated : Bool
deriving DecidableEq

/-- `SyncEngine.processQueue`: no-op when a drain is in progress or the
queue is empty; discard the whole queue when auth is invalidated;
otherwise drain under the `isSyncing` guard. -/
def processQueue (s : EngineState) (env : Nat → DrainStep) (fuel : Nat) :
    EngineState × List QueueEvent :=
  if s.isSyncing || s.queue.isEmpty then (s, [])
  else if s.authInvalidated then ({ s with queue := [] }, [])
  else
    let (q1, evs) := drainLoop env 0 fuel s.queue
    ({ s with queue := q1, isSyncing := false }, evs)

/-- The queue invariant from the specification: at most one item per path. -/
abbrev uniquePaths (q : List SyncQueueItem) : Prop := (q.map (·.filePath)).Nodup

example :
    addToQueue [⟨"a", .create, 0, 0⟩, ⟨"b", .create, 0, 0⟩] "a" .delete 9
      = [⟨"b", .create, 0, 0⟩, ⟨"a", .delete, 9, 0⟩] := by decide

example :
    (drainIteration [⟨"a", .create, 0, 0⟩] ⟨.fail 500, [("a", .update, 7)]⟩).1
      = [⟨"a", .update, 7, 0⟩, ⟨"a", .create, 0, 1⟩] := by decide

example : handleSyncFailure [] ⟨"a", .create, 0, 3⟩ 500 = [] := by decide

example : handleSyncFailure [] ⟨"a", .create, 0, 1⟩ 409 = [] := by decide

/-! ## Change detection and single-file sync
(`SyncEngine.needsSync`, `SyncEngine.syncFile`) -/

/-- `SyncedFileInfo` from `src/types.ts`: the per-path tracking record. -/
structure SyncedFileInfo where
  mtime : Nat
  hash : String
deriving DecidableEq

/-- The `syncedFiles` map (path → tracking record). -/
abbrev PathMap := String → Option SyncedFileInfo

def PathMap.empty : PathMap := fun _ => none

/-- `this.syncedFiles.set(path, v)`. -/
def PathMap.set (m : PathMap) (p : String) (v : SyncedFileInfo) : PathMap :=
  fun q => if q = p then some v else m q

/-- A vault file as seen by the engine: path, `stat.mtime`, `stat.ctime`,
and its readable content. -/
structure VFile where
  path : String
  mtime : Nat
  ctime : Nat
  content : String
deriving DecidableEq

/-- Result of `needsSync`: the boolean answer, the tracking map afterwards,
and whether the file content was read. -/
structure NeedsSyncResult where
  needed : Bool
  map : PathMap
  readContent : Bool

/-- `SyncEngine.needsSync`: fast path on equal mtime, hash comparison
otherwise, refreshing the recorded mtime when only metadata changed. -/
def needsSync (hashFn : String → String) (m : PathMap) (f : VFile) : NeedsSyncResult :=
  match m f.path with
  | none => ⟨true, m, false⟩
  | some tracked =>
    if f.mtime == tracked.mtime then ⟨false, m, false⟩
    else
      let hash := hashFn f.content
      if hash == tracked.hash then ⟨false, m.set f.path ⟨f.mtime, hash⟩, true⟩
      else ⟨true, m, true⟩

/-- `new Blob([content]).size` compared against `MAX_ENTRY_SIZE_MB`
(1 MB): the UTF-8 byte size of the content. -/
def MAX_ENTRY_SIZE_BYTES : Nat := 1024 * 1024

/-- Errors `syncFile` can throw. -/
inductive SyncErr where
  | tooLarge
  | api (status : Nat)
deriving DecidableEq

/-- Resolution of `syncFile`: the returned boolean or the thrown error. -/
inductive SFRes where
  | ok (synced : Bool)
  | error (e : SyncErr)
deriving DecidableEq

/-- Result of `syncFile`: outcome, tracking map afterwards, and whether an
upload (the `syncPerson`/`syncEntry` network sequence) was attempted. -/
structure SyncFileResult where
  result : SFRes
  map : PathMap
  uploaded : Bool

/-- `SyncEngine.syncFile`: read + hash, hash-dedup skip (refreshing the
recorded mtime), size check, then upload via `syncPerson`/`syncEntry`
(outcome supplied by the environment); tracking is updated only after a
successful upload. -/
def syncFile (hashFn : String → String) (m : PathMap) (f : VFile)
    (uploadEnv : Except Nat Unit) : SyncFileResult :=
  let hash := hashFn f.content
  let dedupSkip :=
    match m f.path with
    | some tracked => tracked.hash == hash
    | none => false
  if dedupSkip then ⟨.ok false, m.set f.path ⟨f.mtime, hash⟩, false⟩
  else if f.content.utf8ByteSize > MAX_ENTRY_SIZE_BYTES then
    ⟨.error .tooLarge, m, false⟩
  else
    match uploadEnv with
    | .error status => ⟨.error (.api status), m, true⟩
    | .ok _ => ⟨.ok true, m.set f.path ⟨f.mtime, hash⟩, true⟩

example :
    (needsSync (fun s => s) (PathMap.empty.set "a.md" ⟨5, "x"⟩)
      ⟨"a.md", 5, 0, "y"⟩).needed = false := by decide

example :
    (needsSync (fun s => s) (PathMap.empty.set "a.md" ⟨5, "x"⟩)
      ⟨"a.md", 9, 0, "x"⟩).map "a.md" = some ⟨9, "x"⟩ := by decide

example :
    (syncFile (fun s => s) (PathMap.empty.set "a.md" ⟨5, "x"⟩)
      ⟨"a.md", 9, 0, "x"⟩ (.ok ())).uploaded = false := by decide

example :
    (syncFile (fun s => s) PathMap.empty ⟨"a.md", 9, 0, "new"⟩ (.error 500)).map "a.md"
      = none := by decide

/-! ## Mirror-delete reconciler (`SyncEngine.mirrorDelete`) -/

/-- A remote entry as the reconciler sees it (`EntryResponse`): its id and
local-origin path (`file_path`, null for web-GUI/quick-capture entries). -/
structure EntryObj where
  id : String
  file_path : Option String
deriving DecidableEq

/-- A remote person (`PersonResponse`): id and local-origin path
(`person_note_path`). -/
structure PersonObj where
  id : String
  person_note_path : Option String
deriving DecidableEq

/-- Network calls the reconciler can issue. -/
inductive ApiCall where
  | listEntries
  | deleteEntry (id : String)
  | listPeople
  | deletePerson (id : String)
deriving DecidableEq

/-- Environment for a mirror-delete pass: the outcome of each remote
listing and of each individual delete (HTTP status on failure). -/
structure MirrorEnv where
  listEntriesRes : Except Nat (List EntryObj)
  deleteEntryRes : String → Except Nat Unit
  listPeopleRes : Except Nat (List PersonObj)
  deletePersonRes : String → Except Nat Unit

/-- The entries loop of `mirrorDelete`: skip entries whose `file_path` is
falsy (`null` or the empty string) or still present locally; delete the
rest, aborting at the first failed call (the exception propagates to the
surrounding `try`).  Returns the calls issued and the escaping error. -/
def mirrorEntryLoop (env : MirrorEnv) (localPaths : List String) :
    List EntryObj → List ApiCall × Option Nat
  | [] => ([], none)
  | e :: rest =>
    match e.file_path with
    | none => mirrorEntryLoop env localPaths rest
    | some fp =>
      if fp == "" then mirrorEntryLoop env localPaths rest
      else if localPaths.contains fp then mirrorEntryLoop env localPaths rest
      else
        match env.deleteEntryRes e.id with
        | .ok _ =>
          let (calls, err) := mirrorEntryLoop env localPaths rest
          (.deleteEntry e.id :: calls, err)
        | .error status => ([.deleteEntry e.id], some status)

/-- The people loop of `mirrorDelete` (`person.person_note_path &&
!localPaths.has(...)`). -/
def mirrorPersonLoop (env : MirrorEnv) (localPaths : List String) :
    List PersonObj → List ApiCall × Option Nat
  | [] => ([], none)
  | p :: rest =>
    match p.person_note_path with
    | none => mirrorPersonLoop env localPaths rest
    | some pp =>
      if pp == "" then mirrorPersonLoop env localPaths rest
      else if localPaths.contains pp then mirrorPersonLoop env localPaths rest
      else
        match env.deletePersonRes p.id with
        | .ok _ =>
          let (calls, err) := mirrorPersonLoop env localPaths rest
          (.deletePerson p.id :: calls, err)
        | .error status => ([.deletePerson p.id], some status)

/-- The body inside `mirrorDelete`'s `try`: list entries, reconcile, list
people, reconcile; any network failure escapes to the `catch`. -/
def mirrorDeleteBody (env : MirrorEnv) (localPaths : List String) :
    List ApiCall × Option Nat :=
  match env.listEntriesRes with
  | .error status => ([.listEntries], some status)
  | .ok entries =>
    let er := mirrorEntryLoop env localPaths entries
    match er.2 with
    | some status => (.listEntries :: er.1, some status)
    | none =>
      match env.listPeopleRes with
      | .error status => (.listEntries :: er.1 ++ [.listPeople], some status)
      | .ok people =>
        let pr := mirrorPersonLoop env localPaths people
        (.listEntries :: er.1 ++ .listPeople :: pr.1, pr.2)

/-- Result of a mirror-delete pass: the calls issued, and the error the
internal `catch` swallowed and logged, if any. -/
structure MirrorResult where
  calls : List ApiCall
  caughtError : Option Nat
deriving DecidableEq

/-- `SyncEngine.mirrorDelete`: build the local path set, run the body, and
catch every failure internally — the promise always resolves, so an error
value never reaches the caller. -/
def mirrorDeleteRun (env : MirrorEnv) (localFiles : List VFile) :
    Except Nat MirrorResult :=
  let localPaths := localFiles.map (·.path)
  let body := mirrorDeleteBody env localPaths
  match body.2 with
  | some status => .ok ⟨body.1, some status⟩
  | none => .ok ⟨body.1, none⟩

/-- The `mirrorDelete` call site inside `syncAll` (`try ... catch` that
would append a `Mirror delete:` error if the promise rejected). -/
def mirrorPhaseErrors (errors : List String) (env : MirrorEnv)
    (localFiles : List VFile) : List String :=
  match mirrorDeleteRun env localFiles with
  | .ok _ => errors
  | .error status => errors ++ ["Mirror delete: " ++ toString status]

/-! ## Bulk sync (`SyncEngine.syncAll`) -/

/-- A `BulkSyncItem` prepared for the bulk endpoint.  The source fills in
the full upsert payload (`action: 'create'`, parsed markdown, dates); the
claims under verification only inspect which paths are uploaded, so the
payload is represented by its `file_path`. -/
structure BulkItem where
  file_path : String
deriving DecidableEq

/-- State threaded through `syncAll`'s preparation loop. -/
structure PrepState where
  entryItems : List BulkItem
  peopleItems : List BulkItem
  errors : List String
  map : PathMap

/-- One iteration of `syncAll`'s preparation loop over a candidate file:
mtime fast path (incremental mode only), hash dedup with mtime refresh,
size check, then classification into the entry or people item list with a
tracking update at preparation time. -/
def prepareFile (hashFn : String → String) (st : Settings) (force : Bool)
    (ps : PrepState) (f : VFile) : PrepState :=
  -- incremental-mode mtime fast path (avoids the file read)
  if !force &&
      (match ps.map f.path with
       | some tracked => f.mtime == tracked.mtime
       | none => false) then ps
  -- hash dedup (both modes), refreshing the recorded mtime
  else if (match ps.map f.path with
       | some tracked => tracked.hash == hashFn f.content
       | none => false) then
    { ps with map := ps.map.set f.path ⟨f.mtime, hashFn f.content⟩ }
  -- size check
  else if f.content.utf8ByteSize > MAX_ENTRY_SIZE_BYTES then
    { ps with errors := ps.errors ++ [f.path ++ ": File too large"] }
  -- classification and tracking update at preparation time
  else if detectContentType st f.path == "person" then
    { ps with
        peopleItems := ps.peopleItems ++ [⟨f.path⟩],
        map := ps.map.set f.path ⟨f.mtime, hashFn f.content⟩ }
  else
    { ps with
        entryItems := ps.entryItems ++ [⟨f.path⟩],
        map := ps.map.set f.path ⟨f.mtime, hashFn f.content⟩ }

/-- `syncAll`'s preparation loop over the candidate files. -/
def syncAllPrepare (hashFn : String → String) (st : Settings) (force : Bool)
    (m0 : PathMap) (files : List VFile) : PrepState :=
  files.foldl (prepareFile hashFn st force) ⟨[], [], [], m0⟩

/-- `BULK_CHUNK_SIZE = 50` slicing of an item list, with structural fuel
(one unit per chunk; `l.length` units always suffice). -/
def chunk50Aux : Nat → List BulkItem → List (List BulkItem)
  | _, [] => []
  | 0, l => [l]
  | fuel + 1, l@(_ :: _) => l.take 50 :: chunk50Aux fuel (l.drop 50)

/-- `BULK_CHUNK_SIZE = 50` slicing of an item list. -/
def chunk50 (l : List BulkItem) : List (List BulkItem) := chunk50Aux l.length l

/-- Outcome of one `bulkSync` chunk request: per-item errors from a
successful response, or a rejected request. -/
inductive ChunkOutcome where
  | ok (itemErrors : List (String × String))
  | httpError (msg : String)

/-- The per-chunk submission loop: each chunk is one `bulkSync` call whose
per-item errors (or chunk-level failure) are collected without aborting
the remaining chunks. -/
def runChunksGo (env : Nat → ChunkOutcome) : Nat → List (List BulkItem) → List String
  | _, [] => []
  | i, _ :: rest =>
    let errs :=
      match env i with
      | .ok itemErrors => itemErrors.map fun pe => pe.1 ++ ": " ++ pe.2
      | .httpError msg => ["Bulk sync chunk: " ++ msg]
    errs ++ runChunksGo env (i + 1) rest

/-- Environment for a whole `syncAll` pass. -/
structure SyncAllEnv where
  entryChunks : Nat → ChunkOutcome
  peopleChunks : Nat → ChunkOutcome
  mirror : MirrorEnv

/-- Resolution of `syncAll`. -/
inductive SyncOutcome where
  | ok
  | error (msg : String)
deriving DecidableEq

/-- Result of a `syncAll` pass: resolution, tracking map afterwards, the
prepared item lists, the collected errors, the number of `bulkSync`
(upload) calls, and the total number of network calls issued. -/
structure SyncAllResult where
  res : SyncOutcome
  map : PathMap
  entryItems : List BulkItem
  peopleItems : List BulkItem
  errors : List String
  bulkCalls : Nat
  networkCalls : Nat

/-- `SyncEngine.syncAll`: abort with an authentication error before any
network call if auth is invalidated; otherwise filter candidates, prepare
(skipping unchanged files), submit both chunk loops, optionally run the
mirror-delete pass, and reject iff any error was collected.  The
`authInvalidated` argument is the engine's `apiClient.isAuthInvalidated()`
view of the token manager's flag. -/
def syncAllModel (hashFn : String → String) (st : Settings)
    (authInvalidated : Bool) (force : Bool) (files : List VFile)
    (m0 : PathMap) (env : SyncAllEnv) : SyncAllResult :=
  if authInvalidated then
    ⟨.error "Authentication expired. Please log in again in Pensio settings.",
     m0, [], [], [], 0, 0⟩
  else
    let filesToSync := files.filter fun f => shouldSyncFile st f.path
    let ps := syncAllPrepare hashFn st force m0 filesToSync
    let eChunks := chunk50 ps.entryItems
    let pChunks := chunk50 ps.peopleItems
    let errs1 := ps.errors ++ runChunksGo env.entryChunks 0 eChunks
      ++ runChunksGo env.peopleChunks 0 pChunks
    let errs2 :=
      if st.enableMirrorDelete then mirrorPhaseErrors errs1 env.mirror filesToSync
      else errs1
    let mirrorCalls :=
      if st.enableMirrorDelete then
        match mirrorDeleteRun env.mirror filesToSync with
        | .ok r => r.calls.length
        | .error _ => 0
      else 0
    let res :=
      if errs2.isEmpty then SyncOutcome.ok
      else .error ("Sync completed with " ++ toString errs2.length ++ " error(s): "
        ++ errs2.headD "")
    ⟨res, ps.map, ps.entryItems, ps.peopleItems, errs2,
     eChunks.length + pChunks.length,
     eChunks.length + pChunks.length + mirrorCalls⟩

/-! ## General lemmas -/

theorem infix_map {α β : Type} (f : α → β) {l₁ l₂ : List α} (h : l₁ <:+: l₂) :
    l₁.map f <:+: l₂.map f := by
  obtain ⟨s, t, rfl⟩ := h
  exact ⟨s.map f, t.map f, by simp⟩

theorem mirrorEntryLoop_calls_sound (env : MirrorEnv) (lp : List String) :
    ∀ l c, c ∈ (mirrorEntryLoop env lp l).1 →
      ∃ e ∈ l, c = .deleteEntry e.id ∧
        ∃ fp, e.file_path = some fp ∧ fp ≠ "" ∧ fp ∉ lp := by
  intro l
  induction l with
  | nil => simp [mirrorEntryLoop]
  | cons e rest ih =>
    intro c hc
    match hfp : e.file_path with
    | none =>
      simp only [mirrorEntryLoop, hfp] at hc
      obtain ⟨e', he', rest'⟩ := ih c hc
      exact ⟨e', List.mem_cons_of_mem _ he', rest'⟩
    | some fp =>
      simp only [mirrorEntryLoop, hfp] at hc
      by_cases hempty : fp = ""
      · rw [if_pos (by simpa using hempty)] at hc
        obtain ⟨e', he', rest'⟩ := ih c hc
        exact ⟨e', List.mem_cons_of_mem _ he', rest'⟩
      · rw [if_neg (by simpa using hempty)] at hc
        by_cases hloc : lp.contains fp
        · rw [if_pos hloc] at hc
          obtain ⟨e', he', rest'⟩ := ih c hc
          exact ⟨e', List.mem_cons_of_mem _ he', rest'⟩
        · rw [if_neg hloc] at hc
          have hnotmem : fp ∉ lp := by simpa using hloc
          match hdel : env.deleteEntryRes e.id with
          | .ok _ =>
            rw [hdel] at hc
            rcases List.mem_cons.mp hc with hhd | htl
            · exact ⟨e, List.mem_cons_self .., hhd, fp, hfp, hempty, hnotmem⟩
            · obtain ⟨e', he', rest'⟩ := ih c htl
              exact ⟨e', List.mem_cons_of_mem _ he', rest'⟩
          | .error st =>
            rw [hdel] at hc
            rcases List.mem_singleton.mp hc with rfl
            exact ⟨e, List.mem_cons_self .., rfl, fp, hfp, hempty, hnotmem⟩

theorem mirrorPersonLoop_calls_sound (env : MirrorEnv) (lp : List String) :
    ∀ l c, c ∈ (mirrorPersonLoop env lp l).1 →
      ∃ p ∈ l, c = .deletePerson p.id ∧
        ∃ pp, p.person_note_path = some pp ∧ pp ≠ "" ∧ pp ∉ lp := by
  intro l
  induction l with
  | nil => simp [mirrorPersonLoop]
  | cons p rest ih =>
    intro c hc
    match hfp : p.person_note_path with
    | none =>
      simp only [mirrorPersonLoop, hfp] at hc
      obtain ⟨p', hp', rest'⟩ := ih c hc
      exact ⟨p', List.mem_cons_of_mem _ hp', rest'⟩
    | some pp =>
      simp only [mirrorPersonLoop, hfp] at hc
      by_cases hempty : pp = ""
      · rw [if_pos (by simpa using hempty)] at hc
        obtain ⟨p', hp', rest'⟩ := ih c hc
        exact ⟨p', List.mem_cons_of_mem _ hp', rest'⟩
      · rw [if_neg (by simpa using hempty)] at hc
        by_cases hloc : lp.contains pp
        · rw [if_pos hloc] at hc
          obtain ⟨p', hp', rest'⟩ := ih c hc
          exact ⟨p', List.mem_cons_of_mem _ hp', rest'⟩
        · rw [if_neg hloc] at hc
          have hnotmem : pp ∉ lp := by simpa using hloc
          match hdel : env.deletePersonRes p.id with
          | .ok _ =>
            rw [hdel] at hc
            rcases List.mem_cons.mp hc with hhd | htl
            · exact ⟨p, List.mem_cons_self .., hhd, pp, hfp, hempty, hnotmem⟩
            · obtain ⟨p', hp', rest'⟩ := ih c htl
              exact ⟨p', List.mem_cons_of_mem _ hp', rest'⟩
          | .error st =>
            rw [hdel] at hc
            rcases List.mem_singleton.mp hc with rfl
            exact ⟨p, List.mem_cons_self .., rfl, pp, hfp, hempty, hnotmem⟩

theorem mirrorDeleteRun_eq (env : MirrorEnv) (localFiles : List VFile) :
    mirrorDeleteRun env localFiles
      = .ok ⟨(mirrorDeleteBody env (localFiles.map (·.path))).1,
             (mirrorDeleteBody env (localFiles.map (·.path))).2⟩ := by
  unfold mirrorDeleteRun
  cases h : (mirrorDeleteBody env (localFiles.map (·.path))).2 <;> simp [h]

theorem mirrorDeleteRun_isOk (env : MirrorEnv) (localFiles : List VFile) :
    ∃ r, mirrorDeleteRun env localFiles = .ok r :=
  ⟨_, mirrorDeleteRun_eq env localFiles⟩

theorem mirrorPhaseErrors_id (errors : List String) (env : MirrorEnv)
    (localFiles : List VFile) : mirrorPhaseErrors errors env localFiles = errors := by
  obtain ⟨r, hr⟩ := mirrorDeleteRun_isOk env localFiles
  simp [mirrorPhaseErrors, hr]

theorem addToQueue_eq (q : List SyncQueueItem) (p : String) (a : SyncAction)
    (now : Nat) :
    addToQueue q p a now
      = (q.filter fun item => item.filePath != p) ++ [⟨p, a, now, 0⟩] := rfl

theorem addToQueue_nodup (q : List SyncQueueItem) (p : String) (a : SyncAction)
    (now : Nat) (h : uniquePaths q) : uniquePaths (addToQueue q p a now) := by
  unfold uniquePaths at h ⊢
  rw [addToQueue_eq, List.map_append]
  refine List.Nodup.append ?_ (by simp) ?_
  · have hsub : List.Sublist (q.filter fun item => item.filePath != p) q :=
      List.filter_sublist q
    exact h.sublist (hsub.map _)
  · intro x hx hx2
    simp only [List.map_cons, List.map_nil, List.mem_singleton] at hx2
    subst hx2
    obtain ⟨it, hit, hpath⟩ := List.mem_map.mp hx
    have hne := List.of_mem_filter hit
    simp only [bne_iff_ne, ne_eq, decide_eq_true_eq] at hne
    exact hne hpath

theorem addToQueue_countP (q : List SyncQueueItem) (p : String) (a : SyncAction)
    (now : Nat) :
    (addToQueue q p a now).countP (fun i => i.filePath == p) = 1 := by
  rw [addToQueue_eq, List.countP_append]
  have h0 : (q.filter fun item => item.filePath != p).countP
      (fun i => i.filePath == p) = 0 := by
    rw [List.countP_eq_zero]
    intro it hit
    have hne := List.of_mem_filter hit
    simp only [bne_iff_ne, ne_eq, decide_eq_true_eq] at hne
    simpa using hne
  simp [h0]

theorem handleSyncFailure_nodup (q : List SyncQueueItem) (item : SyncQueueItem)
    (status : Nat) (h : uniquePaths q)
    (hnot : item.filePath ∉ q.map (·.filePath)) :
    uniquePaths (handleSyncFailure q item status) := by
  unfold handleSyncFailure
  split
  · exact h
  · split
    · unfold uniquePaths at h ⊢
      rw [List.map_append]
      refine List.Nodup.append h (by simp) ?_
      intro x hx hx2
      simp only [List.map_cons, List.map_nil, List.mem_singleton] at hx2
      subst hx2
      exact hnot hx
    · exact h

theorem drainIteration_noArrivals_nodup (q : List SyncQueueItem)
    (out : ItemOutcome) (h : uniquePaths q) :
    uniquePaths (drainIteration q ⟨out, []⟩).1 := by
  cases q with
  | nil => simpa [drainIteration] using h
  | cons item rest =>
    have hrest : uniquePaths rest := by
      unfold uniquePaths at h ⊢
      exact (List.nodup_cons.mp h).2
    have hnot : item.filePath ∉ rest.map (·.filePath) := by
      unfold uniquePaths at h
      exact (List.nodup_cons.mp h).1
    cases out with
    | ok => simpa [drainIteration, applyArrivals] using hrest
    | fail status =>
      simpa [drainIteration, applyArrivals] using
        handleSyncFailure_nodup rest item status hrest hnot

theorem drainLoop_conflict (i : Nat) :
    ∀ q, drainLoop (fun _ => ⟨.fail 409, []⟩) i q.length q
      = ([], (q.map fun it =>
          [QueueEvent.attempt it.filePath, .failureLogged it.filePath]).flatten) := by
  intro q
  induction q generalizing i with
  | nil => simp [drainLoop]
  | cons item rest ih =>
    show drainLoop _ i (rest.length + 1) (item :: rest) = _
    simp only [drainLoop, drainIteration, applyArrivals, List.foldl_nil,
      handleSyncFailure]
    rw [if_pos (by decide)]
    rw [ih (i + 1)]
    simp

/-! ## Claims -/

/-- Claim C2: every delete call the mirror-delete reconciler issues — under
any environment, including passes that abort partway on a network failure —
originates from a remote object whose local-origin path (`file_path` for
entries, `person_note_path` for people) is non-null (and non-empty) and
absent from the local file set.  Hence a remote object with a null
local-origin path never has a delete call issued for it, regardless of
which files exist locally. -/
theorem claim_C2_mirror_delete_null_origin_safety
    (env : MirrorEnv) (localFiles : List VFile) (r : MirrorResult)
    (hr : mirrorDeleteRun env localFiles = .ok r) (c : ApiCall)
    (hc : c ∈ r.calls) :
    (∀ id, c = .deleteEntry id →
      ∃ entries, env.listEntriesRes = .ok entries ∧
        ∃ e ∈ entries, e.id = id ∧
          ∃ fp, e.file_path = some fp ∧ fp ≠ "" ∧
            fp ∉ localFiles.map (·.path)) ∧
    (∀ id, c = .deletePerson id →
      ∃ people, env.listPeopleRes = .ok people ∧
        ∃ p ∈ people, p.id = id ∧
          ∃ pp, p.person_note_path = some pp ∧ pp ≠ "" ∧
            pp ∉ localFiles.map (·.path)) := by
  have hcalls : r.calls = (mirrorDeleteBody env (localFiles.map (·.path))).1 := by
    rw [mirrorDeleteRun_eq] at hr
    simp only [Except.ok.injEq] at hr
    rw [← hr]
  rw [hcalls] at hc
  unfold mirrorDeleteBody at hc
  cases hle : env.listEntriesRes with
  | error status =>
    simp only [hle, List.mem_singleton] at hc
    subst hc
    exact ⟨(fun id h => by cases h), (fun id h => by cases h)⟩
  | ok entries =>
    simp only [hle] at hc
    cases heerr : (mirrorEntryLoop env (localFiles.map (·.path)) entries).2 with
    | some status =>
      simp only [heerr] at hc
      rcases List.mem_cons.mp hc with rfl | hmem
      · exact ⟨(fun id h => by cases h), (fun id h => by cases h)⟩
      · obtain ⟨e, he, rfl, fp, hfp, hne, hnl⟩ :=
          mirrorEntryLoop_calls_sound env _ entries c hmem
        refine ⟨fun id hid => ?_, (fun id hid => by cases hid)⟩
        cases hid
        exact ⟨entries, rfl, e, he, rfl, fp, hfp, hne, hnl⟩
    | none =>
      simp only [heerr] at hc
      cases hlp : env.listPeopleRes with
      | error status =>
        simp only [hlp] at hc
        rcases List.mem_cons.mp hc with rfl | hmem
        · exact ⟨(fun id h => by cases h), (fun id h => by cases h)⟩
        · rcases List.mem_append.mp hmem with hmem1 | hmem2
          · obtain ⟨e, he, rfl, fp, hfp, hne, hnl⟩ :=
              mirrorEntryLoop_calls_sound env _ entries c hmem1
            refine ⟨fun id hid => ?_, (fun id hid => by cases hid)⟩
            cases hid
            exact ⟨entries, rfl, e, he, rfl, fp, hfp, hne, hnl⟩
          · rcases List.mem_singleton.mp hmem2 with rfl
            exact ⟨(fun id h => by cases h), (fun id h => by cases h)⟩
      | ok people =>
        simp only [hlp] at hc
        rcases List.mem_cons.mp hc with rfl | hmem
        · exact ⟨(fun id h => by cases h), (fun id h => by cases h)⟩
        · rcases List.mem_append.mp hmem with hmem1 | hmem2
          · obtain ⟨e, he, rfl, fp, hfp, hne, hnl⟩ :=
              mirrorEntryLoop_calls_sound env _ entries c hmem1
            refine ⟨fun id hid => ?_, (fun id hid => by cases hid)⟩
            cases hid
            exact ⟨entries, rfl, e, he, rfl, fp, hfp, hne, hnl⟩
          · rcases List.mem_cons.mp hmem2 with rfl | hmem3
            · exact ⟨(fun id h => by cases h), (fun id h => by cases h)⟩
            · obtain ⟨p, hp, rfl, pp, hpp, hne, hnl⟩ :=
                mirrorPersonLoop_calls_sound env _ people c hmem3
              refine ⟨(fun id hid => by cases hid), fun id hid => ?_⟩
              cases hid
              exact ⟨people, rfl, p, hp, rfl, pp, hpp, hne, hnl⟩

/-- Witness for C2: a concrete pass with one deletable entry. -/
theorem claim_C2_witness :
    ∃ entries,
      (MirrorEnv.mk (.ok [⟨"e1", some "Journal/gone.md"⟩]) (fun _ => .ok ())
          (.ok []) (fun _ => .ok ())).listEntriesRes = .ok entries ∧
      ∃ e ∈ entries, e.id = "e1" ∧
        ∃ fp, e.file_path = some fp ∧ fp ≠ "" ∧
          fp ∉ ([⟨"Journal/here.md", 1, 1, "x"⟩] : List VFile).map (·.path) := by
  have h := claim_C2_mirror_delete_null_origin_safety
    (MirrorEnv.mk (.ok [⟨"e1", some "Journal/gone.md"⟩]) (fun _ => .ok ())
      (.ok []) (fun _ => .ok ()))
    [⟨"Journal/here.md", 1, 1, "x"⟩]
    ⟨[.listEntries, .deleteEntry "e1", .listPeople], none⟩
    rfl (.deleteEntry "e1") (by decide)
  exact h.1 "e1" rfl

/-- Claim C4 counterexample: the queue invariant "at most one item per
path" is violated in a reachable mid-drain state.  Starting from a queue
holding one item for path `a`, `processQueue` shifts the item; while its
sync is awaited, a debounce timer fires and enqueues a fresh `update` for
the same path; the awaited sync then fails with a retryable error (500),
so the shifted item is re-pushed — the queue now holds two items for
path `a`. -/
theorem claim_C4_counterexample :
    ¬ uniquePaths (processQueue ⟨[⟨"a", .create, 0, 0⟩], false, false⟩
        (fun _ => ⟨.fail 500, [("a", .update, 7)]⟩) 1).1.queue := by
  decide

/-- Claim C4 (amended): `addToQueue` always removes every existing item
for the path and appends a single fresh item with `retryCount 0`, so it
preserves the at-most-one-item-per-path invariant; and a drain iteration
during which no new event arrives also preserves the invariant.  The
invariant can break only when a debounce timer enqueues an item for a
path between that path's item being shifted for processing and its
failure re-enqueue. -/
theorem claim_C4_queue_dedup_invariant (q : List SyncQueueItem) (p : String)
    (a : SyncAction) (now : Nat) (out : ItemOutcome) :
    ((addToQueue q p a now).countP (fun i => i.filePath == p) = 1) ∧
    (∃ pre, addToQueue q p a now = pre ++ [⟨p, a, now, 0⟩] ∧
      ∀ i ∈ pre, i.filePath ≠ p) ∧
    (uniquePaths q → uniquePaths (addToQueue q p a now)) ∧
    (uniquePaths q → uniquePaths (drainIteration q ⟨out, []⟩).1) := by
  refine ⟨addToQueue_countP q p a now, ?_, addToQueue_nodup q p a now,
    drainIteration_noArrivals_nodup q out⟩
  refine ⟨q.filter fun item => item.filePath != p, addToQueue_eq q p a now, ?_⟩
  intro i hi
  have hne := List.of_mem_filter hi
  simpa only [bne_iff_ne, ne_eq, decide_eq_true_eq] using hne

/-- Witness for the amended C4 at a concrete queue. -/
theorem claim_C4_witness :
    uniquePaths (addToQueue [⟨"b", .create, 0, 0⟩, ⟨"a", .update, 1, 2⟩]
      "a" .delete 9) ∧
    uniquePaths (drainIteration [⟨"b", .create, 0, 0⟩, ⟨"a", .update, 1, 2⟩]
      ⟨.fail 500, []⟩).1 := by
  have h := claim_C4_queue_dedup_invariant
    [⟨"b", .create, 0, 0⟩, ⟨"a", .update, 1, 2⟩] "a" .delete 9 (.fail 500)
  exact ⟨h.2.2.1 (by decide), h.2.2.2 (by decide)⟩

/-- Claim C5: when a queue item fails, a 401 or 409 drops it (it is not
re-enqueued); any other failure re-enqueues it at the tail with
`retryCount` incremented, but only while `retryCount` is below the
ceiling of 3; an item at the ceiling is dropped, its failure having been
logged for its path.  Moreover a drain in which every attempt fails with
409 attempts each queued item exactly once, reports each exactly once,
and ends with an empty queue. -/
theorem claim_C5_retry_policy (q : List SyncQueueItem) (item : SyncQueueItem)
    (status : Nat) :
    ((status = 401 ∨ status = 409) → handleSyncFailure q item status = q) ∧
    (status ≠ 401 → status ≠ 409 → item.retryCount < 3 →
      handleSyncFailure q item status
        = q ++ [{ item with retryCount := item.retryCount + 1 }]) ∧
    (status ≠ 401 → status ≠ 409 → 3 ≤ item.retryCount →
      handleSyncFailure q item status = q) ∧
    ((drainIteration (item :: q) ⟨.fail status, []⟩).2
      = [.attempt item.filePath, .failureLogged item.filePath]) ∧
    (drainLoop (fun _ => ⟨.fail 409, []⟩) 0 q.length q
      = ([], (q.map fun it =>
          [QueueEvent.attempt it.filePath, .failureLogged it.filePath]).flatten)) := by
  refine ⟨?_, ?_, ?_, rfl, drainLoop_conflict 0 q⟩
  · rintro (rfl | rfl) <;> simp [handleSyncFailure]
  · intro h401 h409 hlt
    unfold handleSyncFailure
    rw [if_neg (by simp [h401, h409]), if_pos hlt]
  · intro h401 h409 hge
    unfold handleSyncFailure
    rw [if_neg (by simp [h401, h409]), if_neg (by omega)]

/-- Witness for C5 at concrete items: a 409 is dropped, a 500 below the
ceiling is re-enqueued with `retryCount` incremented, a 500 at the
ceiling is dropped, and an all-409 drain attempts each item once. -/
theorem claim_C5_witness :
    handleSyncFailure [] ⟨"a", .create, 0, 0⟩ 409 = [] ∧
    handleSyncFailure [] ⟨"a", .create, 0, 1⟩ 500 = [⟨"a", .create, 0, 2⟩] ∧
    handleSyncFailure [] ⟨"a", .create, 0, 3⟩ 500 = [] ∧
    drainLoop (fun _ => ⟨.fail 409, []⟩) 0 1 [⟨"a", .create, 0, 0⟩]
      = ([], [.attempt "a", .failureLogged "a"]) := by
  refine ⟨(claim_C5_retry_policy [] ⟨"a", .create, 0, 0⟩ 409).1 (Or.inr rfl),
    ?_, ?_, ?_⟩
  · have h := (claim_C5_retry_policy [] ⟨"a", .create, 0, 1⟩ 500).2.1
      (by decide) (by decide) (by decide)
    simpa using h
  · have h := (claim_C5_retry_policy [] ⟨"a", .create, 0, 3⟩ 500).2.2.1
      (by decide) (by decide) (by decide)
    simpa using h
  · have h := (claim_C5_retry_policy [⟨"a", .create, 0, 0⟩]
      ⟨"z", .create, 0, 0⟩ 409).2.2.2.2
    simpa using h

/-- Claim C9 counterexample: invoking `processQueue` while authentication
is invalidated does not always discard the queue — if a drain is already
in progress (`isSyncing`), the call returns at the first guard and the
pending queue survives untouched. -/
theorem claim_C9_counterexample :
    (processQueue ⟨[⟨"a", .create, 0, 0⟩], true, true⟩
        (fun _ => ⟨.ok, []⟩) 5).1.queue ≠ [] := by
  decide

/-- Claim C9 (amended): if `processQueue` is invoked while authentication
is invalidated and no drain is in progress, the entire pending queue is
discarded — no item is attempted, no per-item failure is logged, and the
call returns immediately.  (A call arriving while a drain is in progress
is a no-op that leaves the queue untouched.) -/
theorem claim_C9_invalidated_discards_queue (s : EngineState)
    (env : Nat → DrainStep) (fuel : Nat) (hinv : s.authInvalidated = true)
    (hsync : s.isSyncing = false) :
    processQueue s env fuel = ({ s with queue := [] }, []) := by
  obtain ⟨q, sy, ai⟩ := s
  subst hinv hsync
  cases q with
  | nil => simp [processQueue]
  | cons item rest => simp [processQueue]

/-- Witness for the amended C9 at a concrete engine state. -/
theorem claim_C9_witness :
    processQueue ⟨[⟨"a", .create, 0, 0⟩, ⟨"b", .delete, 1, 2⟩], false, true⟩
        (fun _ => ⟨.ok, []⟩) 5
      = (⟨[], false, true⟩, []) := by
  have h := claim_C9_invalidated_discards_queue
    ⟨[⟨"a", .create, 0, 0⟩, ⟨"b", .delete, 1, 2⟩], false, true⟩
    (fun _ => ⟨.ok, []⟩) 5 rfl rfl
  simpa using h

/-- Claim C10: `mirrorDelete` never propagates an error to its caller —
for every environment (including failing listings and failing individual
deletes) the pass resolves normally, so the `try`/`catch` around the
`mirrorDelete` call in `syncAll` never appends a mirror-delete error, and
`syncAll`'s errors and resolution are independent of the mirror
environment. -/
theorem claim_C10_mirror_delete_never_propagates (errs : List String)
    (menv menv2 : MirrorEnv) (localFiles : List VFile)
    (hashFn : String → String) (st : Settings) (force : Bool)
    (files : List VFile) (m0 : PathMap) (ec pc : Nat → ChunkOutcome) :
    (∃ r, mirrorDeleteRun menv localFiles = .ok r) ∧
    mirrorPhaseErrors errs menv localFiles = errs ∧
    (syncAllModel hashFn st false force files m0 ⟨ec, pc, menv⟩).errors
      = (syncAllModel hashFn st false force files m0 ⟨ec, pc, menv2⟩).errors ∧
    (syncAllModel hashFn st false force files m0 ⟨ec, pc, menv⟩).res
      = (syncAllModel hashFn st false force files m0 ⟨ec, pc, menv2⟩).res := by
  refine ⟨mirrorDeleteRun_isOk menv localFiles,
    mirrorPhaseErrors_id errs menv localFiles, ?_, ?_⟩ <;>
  · unfold syncAllModel
    simp only [if_neg (by decide : ¬ (false = true)), mirrorPhaseErrors_id]

theorem tmStep_fixed (op : TMOp) : tmStep op ⟨true, none⟩ = ⟨true, none⟩ := by
  cases op <;> simp [tmStep, getAccessToken, performRefresh, handleUnauthorized]

theorem tmSteps_fixed (ops : List TMOp) : tmSteps ops ⟨true, none⟩ = ⟨true, none⟩ := by
  induction ops with
  | nil => rfl
  | cons op rest ih =>
    show tmSteps rest (tmStep op ⟨true, none⟩) = ⟨true, none⟩
    rw [tmStep_fixed op]
    exact ih

/-- Claim C1: if a token refresh request fails with HTTP 401, the manager
enters the invalidated state with credentials cleared, and that state is
terminal until explicit re-initialization: every subsequent token manager
operation leaves the state unchanged, `getAccessToken` returns `none`
with zero network calls, every refresh attempt is refused with zero
network calls, and `syncAll` — whose gate reads the manager's flag — fails
immediately with an authentication error having issued zero network
calls. -/
theorem claim_C1_auth_invalidation_terminal (s : TokenState) (now : Nat)
    (tks : TokenData) (hinv : s.authInvalidated = false)
    (htok : s.tokens = some tks) (hrt : tks.refreshToken ≠ "") :
    (performRefresh s now (.failure 401)).networkCalls = 1 ∧
    (performRefresh s now (.failure 401)).result
      = .error "Failed to refresh authentication token" ∧
    (performRefresh s now (.failure 401)).state = ⟨true, none⟩ ∧
    (∀ ops : List TMOp, tmSteps ops ⟨true, none⟩ = ⟨true, none⟩) ∧
    (∀ now' env', getAccessToken ⟨true, none⟩ now' env'
      = ⟨none, ⟨true, none⟩, 0⟩) ∧
    (∀ now' env', performRefresh ⟨true, none⟩ now' env'
      = ⟨.error "Authentication was invalidated — please log in again",
         ⟨true, none⟩, 0⟩) ∧
    (∀ (hashFn : String → String) (st : Settings) (force : Bool)
        (files : List VFile) (m0 : PathMap) (env : SyncAllEnv),
      (syncAllModel hashFn st (isAuthInvalidated ⟨true, none⟩) force files m0 env).res
        = .error "Authentication expired. Please log in again in Pensio settings." ∧
      (syncAllModel hashFn st (isAuthInvalidated ⟨true, none⟩) force files m0 env).networkCalls
        = 0 ∧
      (syncAllModel hashFn st (isAuthInvalidated ⟨true, none⟩) force files m0 env).bulkCalls
        = 0) := by
  refine ⟨?_, ?_, ?_, tmSteps_fixed, ?_, ?_, ?_⟩
  · simp [performRefresh, hinv, htok, hrt]
  · simp [performRefresh, hinv, htok, hrt]
  · simp [performRefresh, hinv, htok, hrt]
  · intro now' env'
    simp [getAccessToken]
  · intro now' env'
    simp [performRefresh]
  · intro hashFn st force files m0 env
    refine ⟨?_, ?_, ?_⟩ <;> simp [syncAllModel, isAuthInvalidated]

/-- Witness for C1 at a concrete manager state and sync pass. -/
theorem claim_C1_witness :
    (performRefresh ⟨false, some ⟨"at", "rt", 100⟩⟩ 0 (.failure 401)).state
      = ⟨true, none⟩ ∧
    tmSteps [.clearToks, .getToken 5 (.success "n"), .refresh 6 (.success "n"),
      .unauthorized 7 (.success "n")] ⟨true, none⟩ = ⟨true, none⟩ ∧
    getAccessToken ⟨true, none⟩ 5 (.success "n") = ⟨none, ⟨true, none⟩, 0⟩ ∧
    (syncAllModel (fun s => s) ⟨[⟨"J", "daily_journal"⟩], "People", false⟩
        (isAuthInvalidated ⟨true, none⟩) false [⟨"J/a.md", 1, 1, "x"⟩]
        PathMap.empty
        ⟨fun _ => .ok [], fun _ => .ok [],
         ⟨.ok [], fun _ => .ok (), .ok [], fun _ => .ok ()⟩⟩).networkCalls = 0 := by
  have h := claim_C1_auth_invalidation_terminal ⟨false, some ⟨"at", "rt", 100⟩⟩ 0
    ⟨"at", "rt", 100⟩ rfl rfl (by decide)
  refine ⟨h.2.2.1, h.2.2.2.1 _, h.2.2.2.2.1 5 (.success "n"), ?_⟩
  exact (h.2.2.2.2.2.2 (fun s => s) ⟨[⟨"J", "daily_journal"⟩], "People", false⟩
    false [⟨"J/a.md", 1, 1, "x"⟩] PathMap.empty
    ⟨fun _ => .ok [], fun _ => .ok [],
     ⟨.ok [], fun _ => .ok (), .ok [], fun _ => .ok ()⟩⟩).2.1

/-- Claim C3: for a file with a tracking record, equal mtime answers
"no sync" without reading content; a changed mtime with an unchanged
content hash answers "no sync" after reading, updating the recorded
mtime; a changed hash answers "needs sync"; and `syncFile`'s hash-dedup
guard never uploads a file whose content hash matches the record — so a
metadata-only touch is never re-uploaded. -/
theorem claim_C3_two_tier_change_detection (hashFn : String → String)
    (m : PathMap) (f : VFile) (tracked : SyncedFileInfo)
    (uploadEnv : Except Nat Unit) (htr : m f.path = some tracked) :
    (f.mtime = tracked.mtime →
      (needsSync hashFn m f).needed = false ∧
      (needsSync hashFn m f).readContent = false ∧
      ∀ p, (needsSync hashFn m f).map p = m p) ∧
    (f.mtime ≠ tracked.mtime → hashFn f.content = tracked.hash →
      (needsSync hashFn m f).needed = false ∧
      (needsSync hashFn m f).readContent = true ∧
      (needsSync hashFn m f).map f.path = some ⟨f.mtime, tracked.hash⟩) ∧
    (f.mtime ≠ tracked.mtime → hashFn f.content ≠ tracked.hash →
      (needsSync hashFn m f).needed = true ∧
      (needsSync hashFn m f).readContent = true) ∧
    (tracked.hash = hashFn f.content →
      (syncFile hashFn m f uploadEnv).result = .ok false ∧
      (syncFile hashFn m f uploadEnv).uploaded = false ∧
      (syncFile hashFn m f uploadEnv).map f.path = some ⟨f.mtime, tracked.hash⟩) := by
  refine ⟨?_, ?_, ?_, ?_⟩
  · intro hmt
    simp [needsSync, htr, hmt]
  · intro hmt hh
    simp [needsSync, htr, hmt, hh, PathMap.set]
  · intro hmt hh
    simp [needsSync, htr, hmt, hh]
  · intro hh
    simp [syncFile, htr, ← hh, PathMap.set]

/-- Witness for C3 at a concrete map and file: a metadata-only touch. -/
theorem claim_C3_witness :
    (needsSync (fun s => s) (PathMap.empty.set "J/a.md" ⟨5, "body"⟩)
      ⟨"J/a.md", 9, 0, "body"⟩).needed = false ∧
    (needsSync (fun s => s) (PathMap.empty.set "J/a.md" ⟨5, "body"⟩)
      ⟨"J/a.md", 9, 0, "body"⟩).map "J/a.md" = some ⟨9, "body"⟩ ∧
    (syncFile (fun s => s) (PathMap.empty.set "J/a.md" ⟨5, "body"⟩)
      ⟨"J/a.md", 9, 0, "body"⟩ (.ok ())).uploaded = false := by
  have h := claim_C3_two_tier_change_detection (fun s => s)
    (PathMap.empty.set "J/a.md" ⟨5, "body"⟩) ⟨"J/a.md", 9, 0, "body"⟩
    ⟨5, "body"⟩ (.ok ()) (by decide)
  exact ⟨(h.2.1 (by decide) (by decide)).1, (h.2.1 (by decide) (by decide)).2.2,
    (h.2.2.2 (by decide)).2.1⟩

theorem toList_mk (l : List Char) : (String.mk l).toList = l := rfl

theorem areSimilarNames_of_contains (n1 n2 : String)
    (h : n1 = n2 ∨ n2.toList <:+: n1.toList ∨ n1.toList <:+: n2.toList) :
    areSimilarNames n1 n2 = true := by
  rcases h with rfl | hinf | hinf
  · simp [areSimilarNames]
  · unfold areSimilarNames
    split
    · rfl
    · simp only [Bool.or_eq_true]
      exact Or.inl (by
        simp only [jsIncludes, jsToLower, toList_mk, decide_eq_true_eq]
        exact infix_map Char.toLower hinf)
  · unfold areSimilarNames
    split
    · rfl
    · simp only [Bool.or_eq_true]
      exact Or.inr (by
        simp only [jsIncludes, jsToLower, toList_mk, decide_eq_true_eq]
        exact infix_map Char.toLower hinf)

theorem checkForRenameGo_found (now : Nat) (nn nf : String) :
    ∀ l (dp : String) (info : DeleteInfo), (dp, info) ∈ l →
      now - info.timestamp ≤ RENAME_DETECTION_MS →
      getParentFolder dp = nf → areSimilarNames info.name nn = true →
      (checkForRenameGo now nn nf l).1 = true := by
  intro l
  induction l with
  | nil => intro dp info hmem; cases hmem
  | cons hd tl ih =>
    obtain ⟨hdp, hdi⟩ := hd
    intro dp info hmem hts hf hsim
    rcases List.mem_cons.mp hmem with heq | hmem'
    · injection heq with h1 h2
      subst h1; subst h2
      unfold checkForRenameGo
      rw [if_neg (by omega)]
      rw [if_pos (by simp [hf, hsim])]
    · have hrec := ih dp info hmem' hts hf hsim
      unfold checkForRenameGo
      by_cases hexp : now - hdi.timestamp > RENAME_DETECTION_MS
      · rw [if_pos hexp]; exact hrec
      · rw [if_neg hexp]
        by_cases hmatch :
            (getParentFolder hdp == nf && areSimilarNames hdi.name nn) = true
        · rw [if_pos hmatch]
        · rw [if_neg hmatch]
          exact hrec

/-- Claim C6: a deletion whose record is still within the rename-detection
window, followed by a creation in the same parent folder whose normalized
base name (extension stripped, trailing `_2`-style suffix stripped)
exactly matches or contains / is contained in the deleted file's
normalized base name, makes `onFileCreated` hand an `update` action to
the debouncer instead of a `create`. -/
theorem claim_C6_rename_reclassified_as_update (st : Settings)
    (rd : List (String × DeleteInfo)) (now : Nat)
    (newPath deletedPath : String) (ts : Nat)
    (hmem : (deletedPath, ⟨extractBaseName deletedPath, ts⟩) ∈ rd)
    (hwin : now - ts ≤ RENAME_DETECTION_MS)
    (hfolder : getParentFolder deletedPath = getParentFolder newPath)
    (hsim : extractBaseName deletedPath = extractBaseName newPath ∨
      (extractBaseName newPath).toList <:+: (extractBaseName deletedPath).toList ∨
      (extractBaseName deletedPath).toList <:+: (extractBaseName newPath).toList)
    (hsync : shouldSyncFile st newPath = true) :
    onFileCreatedAction st rd now newPath = some .update := by
  have hfound := checkForRenameGo_found now (extractBaseName newPath)
    (getParentFolder newPath) rd deletedPath ⟨extractBaseName deletedPath, ts⟩
    hmem (by simpa using hwin) hfolder
    (areSimilarNames_of_contains _ _ hsim)
  simp [onFileCreatedAction, checkForRename, hsync, hfound]

/-- Witness for C6: delete of `People/Alice.md` then create of
`People/Alice_2.md` within the window is enqueued as an update. -/
theorem claim_C6_witness :
    onFileCreatedAction ⟨[], "People", false⟩
      [("People/Alice.md", ⟨"Alice", 1000⟩)] 3000 "People/Alice_2.md"
      = some .update := by
  exact claim_C6_rename_reclassified_as_update ⟨[], "People", false⟩
    [("People/Alice.md", ⟨"Alice", 1000⟩)] 3000 "People/Alice_2.md"
    "People/Alice.md" 1000 (by decide) (by decide) (by decide)
    (Or.inl (by decide)) (by decide)

/-- Claim C8 counterexample: in a bulk `syncAll` pass the tracking record
of a path is created at preparation time, before its upload.  With one
untracked file whose bulk chunk fails, the pass rejects, yet the file's
record is created anyway, and a following incremental pass skips the file
instead of retrying it. -/
theorem claim_C8_counterexample :
    (syncAllModel (fun s => s) ⟨[⟨"J", "daily_journal"⟩], "", false⟩ false false
        [⟨"J/a.md", 5, 0, "hello"⟩] PathMap.empty
        ⟨fun _ => .httpError "boom", fun _ => .ok [],
         ⟨.ok [], fun _ => .ok (), .ok [], fun _ => .ok ()⟩⟩).errors
      = ["Bulk sync chunk: boom"] ∧
    (syncAllModel (fun s => s) ⟨[⟨"J", "daily_journal"⟩], "", false⟩ false false
        [⟨"J/a.md", 5, 0, "hello"⟩] PathMap.empty
        ⟨fun _ => .httpError "boom", fun _ => .ok [],
         ⟨.ok [], fun _ => .ok (), .ok [], fun _ => .ok ()⟩⟩).map "J/a.md"
      = some ⟨5, "hello"⟩ ∧
    PathMap.empty "J/a.md" = none ∧
    (syncAllModel (fun s => s) ⟨[⟨"J", "daily_journal"⟩], "", false⟩ false false
        [⟨"J/a.md", 5, 0, "hello"⟩]
        (syncAllModel (fun s => s) ⟨[⟨"J", "daily_journal"⟩], "", false⟩ false false
          [⟨"J/a.md", 5, 0, "hello"⟩] PathMap.empty
          ⟨fun _ => .httpError "boom", fun _ => .ok [],
           ⟨.ok [], fun _ => .ok (), .ok [], fun _ => .ok ()⟩⟩).map
        ⟨fun _ => .ok [], fun _ => .ok [],
         ⟨.ok [], fun _ => .ok (), .ok [], fun _ => .ok ()⟩⟩).entryItems
      = [] := by
  refine ⟨?_, ?_, rfl, ?_⟩ <;> decide

/-- Claim C8 (amended): the single-file reactive path `syncFile` updates a
path's tracking record only after a successful upload — any failure
leaves the whole map unchanged; but the bulk `syncAll` pass updates each
prepared path's record at preparation time, before its upload, and the
resulting map does not depend on the chunk or mirror outcomes at all — so
a path whose bulk upload fails is not retried by the mtime fast path on
the next pass. -/
theorem claim_C8_tracking_update_timing (hashFn : String → String)
    (m : PathMap) (f : VFile) (uploadEnv : Except Nat Unit) (err : SyncErr)
    (st : Settings) (force : Bool) (files : List VFile) (m0 : PathMap)
    (ec1 pc1 ec2 pc2 : Nat → ChunkOutcome) (menv1 menv2 : MirrorEnv)
    (q : String) :
    ((syncFile hashFn m f uploadEnv).result = .error err →
      ∀ p, (syncFile hashFn m f uploadEnv).map p = m p) ∧
    ((syncFile hashFn m f uploadEnv).result = .ok true →
      (syncFile hashFn m f uploadEnv).map f.path
        = some ⟨f.mtime, hashFn f.content⟩) ∧
    ((syncAllModel hashFn st false force files m0 ⟨ec1, pc1, menv1⟩).map q
      = (syncAllModel hashFn st false force files m0 ⟨ec2, pc2, menv2⟩).map q) := by
  refine ⟨?_, ?_, rfl⟩
  · intro hres p
    unfold syncFile at hres ⊢
    cases uploadEnv <;> cases htr : m f.path <;>
      simp only [htr] at hres ⊢ <;> split_ifs at hres ⊢ <;> rfl
  · intro hres
    unfold syncFile at hres ⊢
    cases uploadEnv <;> cases htr : m f.path <;>
      simp only [htr] at hres ⊢ <;> split_ifs at hres ⊢ <;>
      simp_all [PathMap.set]

/-- Witness for the amended C8: a failed upload leaves the map unchanged;
a successful one records the current mtime and hash. -/
theorem claim_C8_witness :
    (syncFile (fun s => s) PathMap.empty ⟨"J/a.md", 5, 0, "hello"⟩
      (.error 500)).map "J/a.md" = PathMap.empty "J/a.md" ∧
    (syncFile (fun s => s) PathMap.empty ⟨"J/a.md", 5, 0, "hello"⟩
      (.ok ())).map "J/a.md" = some ⟨5, "hello"⟩ := by
  have h1 := (claim_C8_tracking_update_timing (fun s => s) PathMap.empty
    ⟨"J/a.md", 5, 0, "hello"⟩ (.error 500) (.api 500)
    ⟨[], "", false⟩ false [] PathMap.empty
    (fun _ => .ok []) (fun _ => .ok []) (fun _ => .ok []) (fun _ => .ok [])
    ⟨.ok [], fun _ => .ok (), .ok [], fun _ => .ok ()⟩
    ⟨.ok [], fun _ => .ok (), .ok [], fun _ => .ok ()⟩ "q").1
  have h2 := (claim_C8_tracking_update_timing (fun s => s) PathMap.empty
    ⟨"J/a.md", 5, 0, "hello"⟩ (.ok ()) (.api 500)
    ⟨[], "", false⟩ false [] PathMap.empty
    (fun _ => .ok []) (fun _ => .ok []) (fun _ => .ok []) (fun _ => .ok [])
    ⟨.ok [], fun _ => .ok (), .ok [], fun _ => .ok ()⟩
    ⟨.ok [], fun _ => .ok (), .ok [], fun _ => .ok ()⟩ "q").2.1
  exact ⟨h1 (by decide) "J/a.md", h2 (by decide)⟩

/-! ## Lemmas about `syncAll`'s preparation loop -/

theorem prepareFile_map_other (hashFn : String → String) (st : Settings)
    (force : Bool) (ps : PrepState) (f : VFile) (p : String)
    (hp : p ≠ f.path) :
    (prepareFile hashFn st force ps f).map p = ps.map p := by
  unfold prepareFile
  split_ifs <;> simp [PathMap.set, hp]

theorem prepareFile_errors (hashFn : String → String) (st : Settings)
    (force : Bool) (ps : PrepState) (f : VFile) :
    ∃ l, (prepareFile hashFn st force ps f).errors = ps.errors ++ l := by
  unfold prepareFile
  split_ifs <;>
    first
      | exact ⟨[f.path ++ ": File too large"], rfl⟩
      | exact ⟨[], by simp⟩

theorem prepare_foldl_map_other (hashFn : String → String) (st : Settings)
    (force : Bool) :
    ∀ (files : List VFile) (ps : PrepState) (p : String),
      p ∉ files.map (·.path) →
      (files.foldl (prepareFile hashFn st force) ps).map p = ps.map p := by
  intro files
  induction files with
  | nil => intro ps p _; rfl
  | cons f rest ih =>
    intro ps p hp
    simp only [List.map_cons, List.mem_cons, not_or] at hp
    rw [List.foldl_cons, ih _ p hp.2,
      prepareFile_map_other hashFn st force ps f p hp.1]

theorem prepare_foldl_errors_prefix (hashFn : String → String) (st : Settings)
    (force : Bool) :
    ∀ (files : List VFile) (ps : PrepState),
      ∃ l, (files.foldl (prepareFile hashFn st force) ps).errors
        = ps.errors ++ l := by
  intro files
  induction files with
  | nil => intro ps; exact ⟨[], by simp⟩
  | cons f rest ih =>
    intro ps
    obtain ⟨l0, h0⟩ := prepareFile_errors hashFn st force ps f
    obtain ⟨l1, h1⟩ := ih (prepareFile hashFn st force ps f)
    exact ⟨l0 ++ l1, by rw [List.foldl_cons, h1, h0, List.append_assoc]⟩

theorem prepare_errors_nil (hashFn : String → String) (st : Settings)
    (force : Bool) (files : List VFile) (ps : PrepState)
    (h : (files.foldl (prepareFile hashFn st force) ps).errors = []) :
    ps.errors = [] := by
  obtain ⟨l, hl⟩ := prepare_foldl_errors_prefix hashFn st force files ps
  rw [hl] at h
  exact (List.append_eq_nil.mp h).1

theorem prepareFile_map_self (hashFn : String → String) (st : Settings)
    (force : Bool) (ps : PrepState) (f : VFile)
    (h : (prepareFile hashFn st force ps f).errors = []) :
    ∃ rec, (prepareFile hashFn st force ps f).map f.path = some rec ∧
      rec.mtime = f.mtime := by
  unfold prepareFile at h ⊢
  split_ifs at h ⊢ with h1 h2 h3 h4
  · -- mtime fast path: the record already carries the current mtime
    simp only [Bool.and_eq_true] at h1
    cases hm : ps.map f.path with
    | none => rw [hm] at h1; simp at h1
    | some tracked =>
      rw [hm] at h1
      simp only [beq_iff_eq] at h1
      exact ⟨tracked, rfl, h1.2.symm⟩
  · exact ⟨⟨f.mtime, hashFn f.content⟩, by simp [PathMap.set], rfl⟩
  · simp at h
  · exact ⟨⟨f.mtime, hashFn f.content⟩, by simp [PathMap.set], rfl⟩
  · exact ⟨⟨f.mtime, hashFn f.content⟩, by simp [PathMap.set], rfl⟩

theorem prepare_foldl_tracked (hashFn : String → String) (st : Settings)
    (force : Bool) :
    ∀ (files : List VFile) (ps : PrepState),
      (files.map (·.path)).Nodup →
      (files.foldl (prepareFile hashFn st force) ps).errors = [] →
      ∀ f ∈ files,
        ∃ rec, (files.foldl (prepareFile hashFn st force) ps).map f.path
          = some rec ∧ rec.mtime = f.mtime := by
  intro files
  induction files with
  | nil => intro ps _ _ f hf; cases hf
  | cons f rest ih =>
    intro ps hnodup herr g hg
    rw [List.foldl_cons] at herr
    have hstep_err : (prepareFile hashFn st force ps f).errors = [] :=
      prepare_errors_nil hashFn st force rest _ herr
    rw [List.map_cons, List.nodup_cons] at hnodup
    rcases List.mem_cons.mp hg with rfl | hg'
    · obtain ⟨rec, hmap, hmt⟩ :=
        prepareFile_map_self hashFn st force ps g hstep_err
      refine ⟨rec, ?_, hmt⟩
      rw [List.foldl_cons,
        prepare_foldl_map_other hashFn st force rest _ g.path hnodup.1, hmap]
    · obtain ⟨rec, hmap, hmt⟩ := ih _ hnodup.2 herr g hg'
      exact ⟨rec, by rw [List.foldl_cons, hmap], hmt⟩

theorem prepareFile_skip (hashFn : String → String) (st : Settings)
    (ps : PrepState) (f : VFile) (rec : SyncedFileInfo)
    (hm : ps.map f.path = some rec) (hmt : rec.mtime = f.mtime) :
    prepareFile hashFn st false ps f = ps := by
  unfold prepareFile
  rw [if_pos (by simp [hm, hmt])]

theorem prepare_foldl_skip (hashFn : String → String) (st : Settings) :
    ∀ (files : List VFile) (ps : PrepState),
      (∀ f ∈ files, ∃ rec, ps.map f.path = some rec ∧ rec.mtime = f.mtime) →
      files.foldl (prepareFile hashFn st false) ps = ps := by
  intro files
  induction files with
  | nil => intro ps _; rfl
  | cons f rest ih =>
    intro ps hall
    obtain ⟨rec, hm, hmt⟩ := hall f (List.mem_cons_self ..)
    rw [List.foldl_cons, prepareFile_skip hashFn st ps f rec hm hmt]
    exact ih ps fun g hg => hall g (List.mem_cons_of_mem _ hg)

theorem syncAllModel_errors_of_ok (hashFn : String → String) (st : Settings)
    (force : Bool) (files : List VFile) (m0 : PathMap) (env : SyncAllEnv)
    (h : (syncAllModel hashFn st false force files m0 env).res = .ok) :
    (syncAllModel hashFn st false force files m0 env).errors = [] := by
  have hiff : (syncAllModel hashFn st false force files m0 env).res
      = (if (syncAllModel hashFn st false force files m0 env).errors.isEmpty
         then SyncOutcome.ok
         else .error ("Sync completed with "
            ++ toString (syncAllModel hashFn st false force files m0 env).errors.length
            ++ " error(s): "
            ++ (syncAllModel hashFn st false force files m0 env).errors.headD "")) := rfl
  rw [hiff] at h
  by_cases hemp : (syncAllModel hashFn st false force files m0 env).errors.isEmpty
  · simpa using hemp
  · rw [if_neg hemp] at h
    cases h

theorem syncAllModel_errors_decompose (hashFn : String → String) (st : Settings)
    (force : Bool) (files : List VFile) (m0 : PathMap) (env : SyncAllEnv) :
    (syncAllModel hashFn st false force files m0 env).errors
      = (syncAllPrepare hashFn st force m0
           (files.filter fun f => shouldSyncFile st f.path)).errors
        ++ runChunksGo env.entryChunks 0
            (chunk50 (syncAllPrepare hashFn st force m0
              (files.filter fun f => shouldSyncFile st f.path)).entryItems)
        ++ runChunksGo env.peopleChunks 0
            (chunk50 (syncAllPrepare hashFn st force m0
              (files.filter fun f => shouldSyncFile st f.path)).peopleItems) := by
  show (if st.enableMirrorDelete then mirrorPhaseErrors _ env.mirror _ else _) = _
  cases st.enableMirrorDelete with
  | false => rfl
  | true => rw [if_pos rfl, mirrorPhaseErrors_id]

/-- Claim C7: if a `syncAll` pass over a vault (with pairwise distinct
file paths) completes successfully and no local file changes, a second
`syncAll` pass starting from the resulting tracking map prepares no
upload items at all — every candidate is skipped by the mtime fast path —
so both chunk-submission loops run over empty lists and zero `bulkSync`
(upload) calls are issued. -/
theorem claim_C7_syncAll_idempotent (hashFn : String → String) (st : Settings)
    (files : List VFile) (m0 : PathMap) (env env2 : SyncAllEnv)
    (hnodup : (files.map (·.path)).Nodup)
    (hok : (syncAllModel hashFn st false false files m0 env).res = .ok) :
    (syncAllModel hashFn st false false files
      (syncAllModel hashFn st false false files m0 env).map env2).entryItems = [] ∧
    (syncAllModel hashFn st false false files
      (syncAllModel hashFn st false false files m0 env).map env2).peopleItems = [] ∧
    (syncAllModel hashFn st false false files
      (syncAllModel hashFn st false false files m0 env).map env2).bulkCalls = 0 := by
  have hfilterNodup :
      ((files.filter fun f => shouldSyncFile st f.path).map (·.path)).Nodup := by
    have hsub : List.Sublist (files.filter fun f => shouldSyncFile st f.path) files :=
      List.filter_sublist files
    exact hnodup.sublist (hsub.map _)
  have herr0 := syncAllModel_errors_of_ok hashFn st false files m0 env hok
  rw [syncAllModel_errors_decompose] at herr0
  have herrprep : (syncAllPrepare hashFn st false m0
      (files.filter fun f => shouldSyncFile st f.path)).errors = [] :=
    (List.append_eq_nil.mp (List.append_eq_nil.mp herr0).1).1
  have htracked := prepare_foldl_tracked hashFn st false
    (files.filter fun f => shouldSyncFile st f.path) ⟨[], [], [], m0⟩
    hfilterNodup herrprep
  have hskip : syncAllPrepare hashFn st false
      (syncAllModel hashFn st false false files m0 env).map
      (files.filter fun f => shouldSyncFile st f.path)
      = ⟨[], [], [],
         (syncAllModel hashFn st false false files m0 env).map⟩ := by
    apply prepare_foldl_skip
    intro f hf
    exact htracked f hf
  refine ⟨?_, ?_, ?_⟩
  · show (syncAllPrepare hashFn st false
      (syncAllModel hashFn st false false files m0 env).map
      (files.filter fun f => shouldSyncFile st f.path)).entryItems = []
    rw [hskip]
  · show (syncAllPrepare hashFn st false
      (syncAllModel hashFn st false false files m0 env).map
      (files.filter fun f => shouldSyncFile st f.path)).peopleItems = []
    rw [hskip]
  · show (chunk50 (syncAllPrepare hashFn st false
        (syncAllModel hashFn st false false files m0 env).map
        (files.filter fun f => shouldSyncFile st f.path)).entryItems).length
      + (chunk50 (syncAllPrepare hashFn st false
        (syncAllModel hashFn st false false files m0 env).map
        (files.filter fun f => shouldSyncFile st f.path)).peopleItems).length = 0
    rw [hskip]
    rfl

/-- Witness for C7: a concrete two-file vault synced twice. -/
theorem claim_C7_witness :
    (syncAllModel (fun s => s) ⟨[⟨"J", "daily_journal"⟩], "People", false⟩
      false false
      [⟨"J/a.md", 5, 0, "alpha"⟩, ⟨"People/Bo.md", 6, 0, "beta"⟩]
      (syncAllModel (fun s => s) ⟨[⟨"J", "daily_journal"⟩], "People", false⟩
        false false
        [⟨"J/a.md", 5, 0, "alpha"⟩, ⟨"People/Bo.md", 6, 0, "beta"⟩]
        PathMap.empty
        ⟨fun _ => .ok [], fun _ => .ok [],
         ⟨.ok [], fun _ => .ok (), .ok [], fun _ => .ok ()⟩⟩).map
      ⟨fun _ => .ok [], fun _ => .ok [],
       ⟨.ok [], fun _ => .ok (), .ok [], fun _ => .ok ()⟩⟩).bulkCalls = 0 := by
  have h := claim_C7_syncAll_idempotent (fun s => s)
    ⟨[⟨"J", "daily_journal"⟩], "People", false⟩
    [⟨"J/a.md", 5, 0, "alpha"⟩, ⟨"People/Bo.md", 6, 0, "beta"⟩]
    PathMap.empty
    ⟨fun _ => .ok [], fun _ => .ok [],
     ⟨.ok [], fun _ => .ok (), .ok [], fun _ => .ok ()⟩⟩
    ⟨fun _ => .ok [], fun _ => .ok [],
     ⟨.ok [], fun _ => .ok (), .ok [], fun _ => .ok ()⟩⟩
    (by decide) (by decide)
  exact h.2.2

end PensioSync
